import Mathlib

/-!
Verification of the pixel-compositor / tile-sampling core of a 2-D platform
game (Rust sources under `src/bitmap/mod.rs` and `src/game/tilemap.rs`).

Shallow embedding conventions:
* `u32` values are modeled as `ℕ`; every routine below keeps its intermediate
  values far under `2^32`, and where Rust wraps or masks we mask explicitly.
* `i32` / `usize` quantities that participate in signed arithmetic are
  modeled as `ℤ`, with the `as usize` cast made explicit (`i32ToUsize`).
* `f32` inputs (`glam::Vec2` world positions) are modeled as exact rationals;
  the only float operations involved (division by the power-of-two
  `tile_size`, multiplication by the power-of-two 16) are exact in `f32` on
  the value ranges exercised, and the `as i32` cast truncates toward zero,
  which `ratTrunc` reproduces.
* Fallible code (`panic!` / `expect`) is modeled with `Except`/`Option`.
-/

namespace GGJ

/-! ## Color combinators (src/bitmap/mod.rs) -/

/-- `blend` (src/bitmap/mod.rs, lines 42-61): single-factor per-channel lerp
`(a·(255−alpha) + b·alpha) >> 8`, channels clamped to 255, output alpha forced
opaque.  `u32` arithmetic modeled on `ℕ`; for `alpha ≤ 255` the `u32`
subtraction `255 - alpha` agrees with truncated subtraction on `ℕ`, and
`.clamp(0, 255)` on an unsigned value is `min · 255`. -/
def blend (a b alpha : ℕ) : ℕ :=
  let ar := (a >>> 16) &&& 0xff
  let ag := (a >>> 8) &&& 0xff
  let ab := a &&& 0xff
  let br := (b >>> 16) &&& 0xff
  let bg := (b >>> 8) &&& 0xff
  let bb := b &&& 0xff
  let red := ((ar * (255 - alpha)) + (br * alpha)) >>> 8
  let green := ((ag * (255 - alpha)) + (bg * alpha)) >>> 8
  let blue := ((ab * (255 - alpha)) + (bb * alpha)) >>> 8
  let red := min red 255
  let green := min green 255
  let blue := min blue 255
  let alphaOut := 255
  (alphaOut <<< 24) ||| (red <<< 16) ||| (green <<< 8) ||| blue

/-- A packed color with its alpha byte forced to `0xff` (what the spec calls
"`a` with alpha forced opaque"). -/
def forceAlpha (a : ℕ) : ℕ :=
  (a &&& 0xffffff) ||| (0xff <<< 24)

/-- The channel map actually applied by `blend` at factor 0 to the kept
operand's channels: `c ↦ (c·255) >> 8`, i.e. `⌊c·255/256⌋`. -/
def darken255 (c : ℕ) : ℕ := (c * 255) >>> 8

/-! ## Pixel buffers (src/bitmap/mod.rs) -/

/-- `Bitmap` (src/bitmap/mod.rs, lines 105-111): width, height, row stride and
the backing pixel memory.  Owned and borrowed (`BitmapData::Pointer`) memory
are both flat `u32` arrays once dereferenced, so one `List ℕ` models the
backing store of either variant. -/
structure Bitmap where
  width : ℕ
  height : ℕ
  stride : ℕ
  pixels : List ℕ
deriving DecidableEq, Repr

/-! ## Tile flags and tile map (src/game/tilemap.rs) -/

namespace TileFlags

def NONE : ℕ := 0x0

def COLLISION : ℕ := 0x1

def SPIKE : ℕ := 0x2

def RED : ℕ := 0x4

def GREEN : ℕ := 0x8

def BLUE : ℕ := 0x10

/-- `WHITE = RED | GREEN | BLUE` (src/game/tilemap.rs, line 21). -/
def WHITE : ℕ := RED ||| GREEN ||| BLUE

/-- `TileFlags::is_colored` (src/game/tilemap.rs, lines 26-28):
`self.intersects(Self::WHITE)`, i.e. the flag word shares a bit with
RED/GREEN/BLUE. -/
def isColored (f : ℕ) : Bool := f &&& WHITE ≠ 0

end TileFlags

/-- `TileStruct` (src/game/tilemap.rs, lines 45-51). -/
structure TileStruct where
  index : ℕ
  sprite : Bitmap
  color : ℕ
  flags : ℕ
deriving DecidableEq, Repr

/-- `BTreeMap<usize, TileStruct>` modeled as an association list with
first-match lookup (`contains_key`/indexing become `Option` operations on the
result). -/
def btreeGet (m : List (ℕ × TileStruct)) (k : ℕ) : Option TileStruct :=
  (m.find? (fun e => e.1 == k)).map (fun e => e.2)

/-- `TileMap` (src/game/tilemap.rs, lines 52-59).  The `unsupported_tile`
placeholder field is omitted: it is loaded from a PNG on disk, and none of the
properties below mention it (the round-trip claims compare width, height and
the flat id array only). -/
structure TileMap where
  tile_size : ℕ
  width : ℕ
  height : ℕ
  tiles : List ℤ
deriving DecidableEq, Repr

/-- Truncation of a rational toward zero: the behavior of Rust's `as i32`
float-to-int cast (used by glam's `Vec2::as_ivec2`) on in-range values.
For `0 ≤ q` this is `⌊q⌋`; for `q < 0` it is `-⌊-q⌋ = ⌈q⌉`. -/
def ratTrunc (q : ℚ) : ℤ := if 0 ≤ q then ⌊q⌋ else -⌊-q⌋

/-- The `i32 → usize` cast `tile_index as usize` (sign-extending two's
complement reinterpretation): `-1` becomes `2^64 - 1`. -/
def i32ToUsize (i : ℤ) : ℕ := (i % (2 ^ 64 : ℤ)).toNat

/-- `TileMap::world_to_tile_index` (src/game/tilemap.rs, lines 125-127):
`(position / self.tile_size as f32).as_ivec2()`.  The `Vec2` position is
modeled as an exact pair of rationals; division by the power-of-two tile size
(8) is exact in `f32`, and `as_ivec2` truncates each component toward zero. -/
def world_to_tile_index (m : TileMap) (position : ℚ × ℚ) : ℤ × ℤ :=
  (ratTrunc (position.1 / (m.tile_size : ℚ)), ratTrunc (position.2 / (m.tile_size : ℚ)))

/-- `TileMap::sample_world_pos` (src/game/tilemap.rs, lines 129-188).
`tile_flags` and `tile_colors` are parameters the source receives and never
reads; they are kept for signature fidelity.  The source's
`tile_index != -1 && tile_objs.contains_key(..)` guard followed by two map
indexings is expressed as one guard plus a `match` on the same lookup.  The
in-range grid access `self.tiles[..]` (which cannot fail on the branch where
it runs) is modeled with `getD`; the default is the empty sentinel `-1`. -/
def sample_world_pos (m : TileMap) (position : ℚ × ℚ)
    (tile_objs : List (ℕ × TileStruct)) (tile_flags : List ℕ)
    (tile_colors : List ℕ) (color_mask : ℕ) : ℕ :=
  let color_mask := color_mask &&& 0xffffff
  let tile_pos := world_to_tile_index m position
  if tile_pos.1 < 0 ∨ tile_pos.2 < 0 ∨ (m.width : ℤ) ≤ tile_pos.1 ∨
      (m.height : ℤ) ≤ tile_pos.2 then
    TileFlags.NONE
  else
    let tile_index := (m.tiles.get? (tile_pos.1 + tile_pos.2 * (m.width : ℤ)).toNat).getD (-1)
    if tile_index ≠ -1 then
      match btreeGet tile_objs (i32ToUsize tile_index) with
      | some obj =>
        if TileFlags.isColored obj.flags && (obj.color &&& color_mask == 0) then
          TileFlags.NONE
        else
          obj.flags
      | none => TileFlags.NONE
    else
      TileFlags.NONE

/-! ## Blitting (src/bitmap/mod.rs) -/

/-- `0, 1, ..., n-1` as integers (`for _ in 0..n` ranges; empty when `n ≤ 0`). -/
def intRange (n : ℤ) : List ℤ := (List.range n.toNat).map (fun i : ℕ => (i : ℤ))

/-- The one-axis clipping step shared verbatim by `draw_on`, `draw_tile`,
`draw_on_scaled` (src/bitmap/mod.rs, e.g. lines 515-529): given the signed
blit position `pos`, the unclipped footprint extent `size0` and the target
extent, produce `(s, t, size)`: the source-side start offset, the target-side
start, and the clipped extent (`x.abs()` is `-pos` on the `pos < 0` branch).

```
let (s, t) = if pos < 0 { size += pos; (-pos, 0) } else { (0, pos) };
size = size.min(target_size - t);
```
-/
def clipAxis (pos size0 : ℤ) (targetSize : ℕ) : ℤ × ℤ × ℤ :=
  let st := if pos < 0 then (-pos, 0, size0 + pos) else (0, pos, size0)
  (st.1, st.2.1, min st.2.2 ((targetSize : ℤ) - st.2.1))

/-- The write trace of `Bitmap::draw_on` (src/bitmap/mod.rs, lines 511-546):
for each loop iteration `(j, i)` whose source pixel has a nonzero alpha byte,
the destination coordinate `(tx + i, ty + j)` (column, row) and the copied
color.  Source pixels are fetched at `(sy + j)·src.stride + sx + i` exactly as
in the source (`getD` default 0 stands for the unreachable out-of-range read). -/
def draw_on_trace (src target : Bitmap) (x y : ℤ) : List ((ℤ × ℤ) × ℕ) :=
  let cx := clipAxis x (src.width : ℤ) target.width
  let cy := clipAxis y (src.height : ℤ) target.height
  (intRange cy.2.2).flatMap (fun j =>
    (intRange cx.2.2).filterMap (fun i =>
      let c := src.pixels.getD ((cy.1 + j) * (src.stride : ℤ) + cx.1 + i).toNat 0
      if c &&& 0xff000000 ≠ 0 then some ((cx.2.1 + i, cy.2.1 + j), c) else none))

/-- `Bitmap::draw_on` itself: every traced write lands at the flat index
`row · target.stride + column` (`line0 + tx + x` in the source). -/
def draw_on (src target : Bitmap) (x y : ℤ) : Bitmap :=
  { target with
    pixels := (draw_on_trace src target x y).foldl
      (fun px e => px.set (e.1.2 * (target.stride : ℤ) + e.1.1).toNat e.2)
      target.pixels }

/-- The write trace of `Bitmap::draw_on_scaled` (src/bitmap/mod.rs, lines
195-251).  The four quantities the source derives with `f32` arithmetic are
taken as parameters, so every theorem below covers all values they can take:
`sw0 = (src.width·scale_x).abs() as i32`, `sh0` likewise, and the 16.16
fixed-point steps `du = ((1.0/(w·scale_x))·65535.0) as i32 · src.width`,
`dv` likewise.  Everything after those four lines is exact integer code,
mirrored here: the clip, the accumulator seeds (including the source's use of
`du` — not `dv` — in `sy * du`), the per-pixel advance (`u = u0 + i·du`,
`v = v0 + j·dv` in closed form), the `>> 16` arithmetic shifts, and the
alpha-byte test.  Trace entries are `((i, j), color)` in loop-local indices. -/
def draw_on_scaled_trace (src target : Bitmap) (x y sw0 sh0 du dv : ℤ) :
    List ((ℤ × ℤ) × ℕ) :=
  let cx := clipAxis x sw0 target.width
  let cy := clipAxis y sh0 target.height
  let v0 := if dv < 0 then (cy.2.2 - 1) * (-dv) else cy.1 * du
  (intRange cy.2.2).flatMap (fun j =>
    let u0 := if du < 0 then (cx.2.2 - 1) * (-du) else cx.1 * du
    (intRange cx.2.2).filterMap (fun i =>
      let c := src.pixels.getD
        ((((v0 + j * dv) >>> 16) * (src.width : ℤ) + ((u0 + i * du) >>> 16)).toNat) 0
      if c &&& 0xff000000 ≠ 0 then some ((i, j), c) else none))

/-- The flat destination index `draw_on_scaled` writes for loop iteration
`(i, j)`: the destination pointer starts at `ty · target.width + tx`
(src/bitmap/mod.rs, lines 229-234), advances by `target.width` per row (line
249) and by the column index within a row (line 243).  The destination's
`stride` field does not occur. -/
def scaledWriteIndex (target : Bitmap) (x sw0 y sh0 i j : ℤ) : ℤ :=
  ((clipAxis y sh0 target.height).2.1 * (target.width : ℤ) + (clipAxis x sw0 target.width).2.1)
    + j * (target.width : ℤ) + i

/-- `Bitmap::draw_on_scaled` itself: fold the trace into the pixel array at
the width-addressed flat indices. -/
def draw_on_scaled (src target : Bitmap) (x y sw0 sh0 du dv : ℤ) : Bitmap :=
  { target with
    pixels := (draw_on_scaled_trace src target x y sw0 sh0 du dv).foldl
      (fun px e => px.set (scaledWriteIndex target x sw0 y sh0 e.1.1 e.1.2).toNat e.2)
      target.pixels }

/-- `Bitmap::draw_triangle` (src/bitmap/mod.rs, lines 628-721), on vertices
already in the source's 4-bit fixed-point representation (`(v.x·16.0) as i32`;
the vertices used below are exact multiples of 1/16, for which that `f32`
conversion is exact).  `>> 4` on `i32` is the arithmetic shift modeled by
`>>> 4` on `ℤ`, and `<< 4` is multiplication by 16.  The per-pixel edge
accumulators (`w += fdy..`, `w_row += fdx..`) appear in closed form
`w0_row + j·fdx + i·fdy`.  The inside test `(w0 | w1 | w2) >= 0` of the
source is the sign-bit test of a two's-complement `or`: it holds iff all
three edge values are nonnegative, which is how it is written here. -/
def draw_triangle (bmp : Bitmap) (vx0 vy0 vx1 vy1 vx2 vy2 : ℤ) (color : ℕ) : Bitmap :=
  let min_x := ((min (min vx0 vx1) vx2) + 15) >>> 4
  let max_x := ((max (max vx0 vx1) vx2) + 15) >>> 4
  let min_y := ((min (min vy0 vy1) vy2) + 15) >>> 4
  let max_y := ((max (max vy0 vy1) vy2) + 15) >>> 4
  let min_xi := max min_x 0
  let max_xi := min max_x (bmp.width : ℤ)
  let min_yi := max min_y 0
  let max_yi := min max_y (bmp.height : ℤ)
  let dx01 := vx0 - vx1
  let dx12 := vx1 - vx2
  let dx20 := vx2 - vx0
  let dy01 := vy0 - vy1
  let dy12 := vy1 - vy2
  let dy20 := vy2 - vy0
  let fdx01 := dx01 * 16
  let fdx12 := dx12 * 16
  let fdx20 := dx20 * 16
  let fdy01 := (-dy01) * 16
  let fdy12 := (-dy12) * 16
  let fdy20 := (-dy20) * 16
  let c0 := dy01 * vx0 - dx01 * vy0
  let c1 := dy12 * vx1 - dx12 * vy1
  let c2 := dy20 * vx2 - dx20 * vy2
  let c0 := if ¬(dy01 < 0 ∨ (dy01 = 0 ∧ dx01 > 0)) then c0 - 1 else c0
  let c1 := if ¬(dy12 < 0 ∨ (dy12 = 0 ∧ dx12 > 0)) then c1 - 1 else c1
  let c2 := if ¬(dy20 < 0 ∨ (dy20 = 0 ∧ dx20 > 0)) then c2 - 1 else c2
  let w0_row := c0 + (dx01 * min_yi - dy01 * min_xi) * 16
  let w1_row := c1 + (dx12 * min_yi - dy12 * min_xi) * 16
  let w2_row := c2 + (dx20 * min_yi - dy20 * min_xi) * 16
  { bmp with
    pixels := (intRange (max_yi - min_yi)).foldl (fun px j =>
      (intRange (max_xi - min_xi)).foldl (fun px i =>
        let w0 := w0_row + j * fdx01 + i * fdy01
        let w1 := w1_row + j * fdx12 + i * fdy12
        let w2 := w2_row + j * fdx20 + i * fdy20
        if 0 ≤ w0 ∧ 0 ≤ w1 ∧ 0 ≤ w2 then
          px.set ((min_xi + i) + (min_yi + j) * (bmp.stride : ℤ)).toNat color
        else px) px) bmp.pixels }

/-! ## Level text format (src/game/tilemap.rs: `from_file` / `store_to_file`)

`from_file` reads a file and parses it; the file-system read (and its
"Could not load level file" failure) is outside the model, which takes the
text itself.  A parse failure `panic!`s in the source and is an
`Except.error` here. -/

/-- The decimal digit characters. -/
def digitChar (d : ℕ) : Char :=
  match d with
  | 0 => '0' | 1 => '1' | 2 => '2' | 3 => '3' | 4 => '4'
  | 5 => '5' | 6 => '6' | 7 => '7' | 8 => '8' | _ => '9'

/-- Decimal digits of `n`, most significant first (the digits Rust's
`format!("{}")` emits for a nonnegative value). -/
def natToDigits (n : ℕ) : List Char :=
  if n < 10 then [digitChar n] else natToDigits (n / 10) ++ [digitChar (n % 10)]
termination_by n
decreasing_by exact Nat.div_lt_self (by omega) (by omega)

/-- `format!("{}", t)` for an `i32` value: optional `-`, then decimal digits. -/
def int_repr (t : ℤ) : List Char :=
  if t < 0 then '-' :: natToDigits (-t).toNat else natToDigits t.toNat

/-- Value of a digit string, most significant first. -/
def digitsVal (cs : List Char) : ℕ :=
  cs.foldl (fun acc c => acc * 10 + (c.toNat - 48)) 0

/-- Rust's `str::parse::<i32>()`: an optional single `+`/`-` sign followed by
at least one decimal digit and nothing else, rejecting values outside
`[-2^31, 2^31)`. -/
def parse_i32 (s : List Char) : Option ℤ :=
  match s with
  | [] => none
  | c :: rest =>
    if c = '-' then
      if rest ≠ [] ∧ rest.all (fun d => d.isDigit) ∧ (digitsVal rest : ℤ) ≤ 2 ^ 31 then
        some (-(digitsVal rest : ℤ))
      else none
    else if c = '+' then
      if rest ≠ [] ∧ rest.all (fun d => d.isDigit) ∧ (digitsVal rest : ℤ) < 2 ^ 31 then
        some ((digitsVal rest : ℤ))
      else none
    else
      if (c :: rest).all (fun d => d.isDigit) ∧ (digitsVal (c :: rest) : ℤ) < 2 ^ 31 then
        some ((digitsVal (c :: rest) : ℤ))
      else none

/-- The mutable state of `from_file`'s character loop
(src/game/tilemap.rs, lines 66-98). -/
structure ParseState where
  accumulator : List Char
  row_content : List ℤ
  layout : List (List ℤ)
  tile_count_x : ℕ
deriving DecidableEq, Repr

/-- One iteration of `from_file`'s `for char in ...` loop.  On `,` or `\n` the
accumulator must parse as an `i32` (else the source `panic!`s); `\n`
additionally closes the row and folds its length into `tile_count_x`; `\r` is
skipped; anything else extends the accumulator.  (The source's second
`char == '\n'` arm is dead code — the first arm already matches `'\n'`.) -/
def from_file_step (st : ParseState) (c : Char) : Except String ParseState :=
  if c = ',' ∨ c = '\n' then
    match parse_i32 st.accumulator with
    | none => Except.error "Could not parse!"
    | some tile_index =>
      let st' : ParseState :=
        { st with row_content := st.row_content ++ [tile_index], accumulator := [] }
      if c = '\n' then
        Except.ok { st' with
          layout := st'.layout ++ [st'.row_content],
          tile_count_x := max st'.tile_count_x st'.row_content.length,
          row_content := [] }
      else
        Except.ok st'
  else if c = '\r' then
    Except.ok st
  else
    Except.ok { st with accumulator := st.accumulator ++ [c] }

/-- `from_file`'s character loop over the whole text. -/
def run_steps (st : ParseState) : List Char → Except String ParseState
  | [] => Except.ok st
  | c :: cs =>
    match from_file_step st c with
    | Except.error e => Except.error e
    | Except.ok st' => run_steps st' cs

/-- `Vec::resize(n, 0)`: truncate or right-pad with `0` to length `n`. -/
def resizeRow (row : List ℤ) (n : ℕ) : List ℤ :=
  row.take n ++ List.replicate (n - row.length) 0

/-- `TileMap::from_file` (src/game/tilemap.rs, lines 62-123) on the file's
text: run the character loop, then flatten the layout, resizing every row to
`tile_count_x` (the source's `assert!(row.len() <= tile_count_x)` always holds
because `tile_count_x` is the running maximum of exactly those lengths). -/
def from_file (text : List Char) : Except String TileMap :=
  match run_steps ⟨[], [], [], 0⟩ text with
  | Except.error e => Except.error e
  | Except.ok st =>
    Except.ok
      { tile_size := 8
        width := st.tile_count_x
        height := st.layout.length
        tiles := st.layout.foldl (fun acc row => acc ++ resizeRow row st.tile_count_x) [] }

/-- `TileMap::store_to_file` (src/game/tilemap.rs, lines 384-394) as the text
it writes: per row, append `"{},"` per tile, then `data.pop()` the trailing
comma and push `'\n'`.  The source's `self.tiles[..]` indexing is `getD`; the
round-trip theorem assumes the `tiles.length = width·height` invariant under
which it never defaults. -/
def store_to_file (m : TileMap) : List Char :=
  (List.range m.height).foldl (fun data y =>
    ((List.range m.width).foldl (fun d x =>
        d ++ (int_repr (m.tiles.getD (y * m.width + x) 0) ++ [','])) data).dropLast
      ++ ['\n']) []

/-- The text of one serialized row: `"t0,t1,...,tk,"` (trailing comma kept;
`store_to_file` drops it before the newline). -/
def rowText (row : List ℤ) : List Char :=
  (row.map (fun t => int_repr t ++ [','])).flatten

/-- One serialized row as it appears in the file: entries comma-separated,
newline-terminated. -/
def rowOut (row : List ℤ) : List Char :=
  (rowText row).dropLast ++ ['\n']

/-- A whole (possibly ragged) table rendered in the level text format. -/
def renderRows (rows : List (List ℤ)) : List Char :=
  (rows.map rowOut).flatten

/-- The widest row length, as `from_file` accumulates it. -/
def maxRowLen (rows : List (List ℤ)) : ℕ :=
  rows.foldl (fun acc r => max acc r.length) 0

/-- A `TileMap`'s flat id array cut into its rows. -/
def rowsOf (m : TileMap) : List (List ℤ) :=
  (List.range m.height).map (fun y =>
    (List.range m.width).map (fun x => m.tiles.getD (y * m.width + x) 0))

/-- `t` is representable as an `i32` (the type of the `tiles` vector). -/
abbrev inI32 (t : ℤ) : Prop := -(2 ^ 31) ≤ t ∧ t < 2 ^ 31

/-! ## Concrete fixtures used by witnesses and counterexamples -/

/-- A 1×1 opaque grey sprite. -/
def spr1 : Bitmap := ⟨1, 1, 1, [0xff777777]⟩

/-- The spec's scenario tile: id 5 mapped to a Collision-only, non-gated
definition. -/
def tile5 : TileStruct := ⟨5, spr1, 0xff777777, TileFlags.COLLISION⟩

/-- A GatedRed + Collision tile definition with the red source color. -/
def tileRed : TileStruct := ⟨9, spr1, 0xffff0000, TileFlags.COLLISION ||| TileFlags.RED⟩

def objs1 : List (ℕ × TileStruct) := [(5, tile5), (9, tileRed)]

/-- The spec's scenario grid: 1 row, 3 columns, `[-1, 5, -1]`. -/
def m1 : TileMap := ⟨8, 3, 1, [-1, 5, -1]⟩

/-- A 1×1 opaque source for the plain-blit bound witness. -/
def srcA : Bitmap := ⟨1, 1, 1, [0xff000005]⟩

def dstA : Bitmap := ⟨2, 2, 2, [0, 0, 0, 0]⟩

/-- 2×1 source with two distinct opaque pixels (scale-1 equivalence input). -/
def src6 : Bitmap := ⟨2, 1, 2, [0xff000001, 0xff000002]⟩

def dst6 : Bitmap := ⟨2, 1, 2, [0, 0]⟩

/-- A 1×1 opaque source for the stride-addressing counterexample. -/
def src10 : Bitmap := ⟨1, 1, 1, [0xff000007]⟩

/-- A destination whose stride (3) differs from its width (2), as a borrowed
presentation buffer's can (`new_borrowed`, src/bitmap/mod.rs 136-148). -/
def tgt10 : Bitmap := ⟨2, 2, 3, [0, 0, 0, 0, 0, 0]⟩

def triSentinel : ℕ := 99

/-- A 6×6 buffer pre-filled with the sentinel color. -/
def triBlank : Bitmap := ⟨6, 6, 6, List.replicate 36 triSentinel⟩

/-- The upper-right triangle of the unit square with top-left corner
`(ax/16, ay/16)`: vertices A, C, B of square ABCD (A top-left, B top-right,
C bottom-right, D bottom-left), wound so the edge functions are nonnegative
inside, drawn in color 1. -/
def upperTri (ax ay : ℤ) : Bitmap :=
  draw_triangle triBlank ax ay (ax + 16) (ay + 16) (ax + 16) ay 1

/-- The lower-left triangle A, D, C of the same square, sharing diagonal A-C,
drawn in color 2. -/
def lowerTri (ax ay : ℤ) : Bitmap :=
  draw_triangle triBlank ax ay ax (ay + 16) (ax + 16) (ay + 16) 2

/-- The integer bounding box the rasterizer assigns to that unit square:
columns `[⌈ax/16⌉, ⌈(ax+16)/16⌉)`, rows likewise (`(v + 15) >> 4` is the
source's fixed-point ceiling). -/
def squareBBox (ax ay : ℤ) : List (ℤ × ℤ) :=
  let bx0 := (ax + 15) >>> 4
  let bx1 := (ax + 16 + 15) >>> 4
  let by0 := (ay + 15) >>> 4
  let by1 := (ay + 16 + 15) >>> 4
  (intRange (by1 - by0)).flatMap (fun j =>
    (intRange (bx1 - bx0)).map (fun i => (bx0 + i, by0 + j)))

/-- Exactly-once coverage check: each triangle is drawn into its own
sentinel-filled buffer, and every pixel of the square's bounding box must be
painted in exactly one of the two buffers (no gap along the shared diagonal,
no double paint). -/
def unit_square_split_once (ax ay : ℤ) : Bool :=
  (squareBBox ax ay).all (fun p =>
    (((if (upperTri ax ay).pixels.getD (p.1 + p.2 * (triBlank.stride : ℤ)).toNat triSentinel
          ≠ triSentinel then 1 else 0) +
      (if (lowerTri ax ay).pixels.getD (p.1 + p.2 * (triBlank.stride : ℤ)).toNat triSentinel
          ≠ triSentinel then 1 else 0) : ℕ) == 1))

/-- A rectangular 2×2 map with mixed ids (round-trip witness input). -/
def mRound : TileMap := ⟨8, 2, 2, [1, -1, 7, 42]⟩

/-- A map with rows but no columns: its serialization is a blank line. -/
def mNoCols : TileMap := ⟨8, 0, 1, []⟩

/-- A ragged level text: row 0 has one entry, row 1 has two. -/
def raggedText : List Char := ['1', '\n', '2', ',', '3', '\n']

/-! # Theorems -/

/-- Channel bound: `x &&& 0xff ≤ 255`. -/
theorem and_ff_le (x : ℕ) : x &&& 0xff ≤ 255 :=
  Nat.and_le_right

/-- `darken255` keeps a byte-range channel in byte range (in fact ≤ 254). -/
theorem darken255_le (x : ℕ) (h : x ≤ 255) : darken255 x ≤ 255 := by
  unfold darken255
  rw [Nat.shiftRight_eq_div_pow]
  omega

/-- C5 (counterexample): the claim `blend(a,b,0) = a` with alpha forced opaque
fails at `a = 0x00ffffff, b = 0`: the blend returns `0xfffefefe`, because each
kept channel is scaled by `255/256` (`(c·255) >> 8`), not copied.  The factor
255 endpoint fails symmetrically. -/
theorem blend_endpoints_counterexample :
    blend 0xffffff 0 0 ≠ forceAlpha 0xffffff ∧
      blend 0xffffff 0 0 = 0xfffefefe ∧
      blend 0 0xffffff 255 ≠ forceAlpha 0xffffff := by
  refine ⟨by decide, by decide, by decide⟩

/-- C5 (amended): for all packed colors `a`, `b`, `blend(a,b,0)` equals `a`
with each color channel darkened by `c ↦ (c·255) >> 8` and the alpha byte
forced to `0xff` — in particular it is independent of `b` — and
`blend(a,b,255)` equals `b` treated the same way. -/
theorem blend_endpoint_factors (a b : ℕ) :
    blend a b 0 =
      (0xff <<< 24) ||| (darken255 ((a >>> 16) &&& 0xff) <<< 16) |||
        (darken255 ((a >>> 8) &&& 0xff) <<< 8) ||| darken255 (a &&& 0xff) ∧
    blend a b 255 =
      (0xff <<< 24) ||| (darken255 ((b >>> 16) &&& 0xff) <<< 16) |||
        (darken255 ((b >>> 8) &&& 0xff) <<< 8) ||| darken255 (b &&& 0xff) := by
  unfold blend darken255
  constructor
  · simp only [Nat.sub_zero, Nat.mul_zero, Nat.add_zero]
    rw [Nat.min_eq_left, Nat.min_eq_left, Nat.min_eq_left]
    · have := darken255_le (a &&& 0xff) (and_ff_le a)
      unfold darken255 at this
      exact this
    · have := darken255_le ((a >>> 8) &&& 0xff) (and_ff_le _)
      unfold darken255 at this
      exact this
    · have := darken255_le ((a >>> 16) &&& 0xff) (and_ff_le _)
      unfold darken255 at this
      exact this
  · simp only [Nat.sub_self, Nat.zero_mul, Nat.mul_zero, Nat.zero_add]
    rw [Nat.min_eq_left, Nat.min_eq_left, Nat.min_eq_left]
    · have := darken255_le (b &&& 0xff) (and_ff_le b)
      unfold darken255 at this
      exact this
    · have := darken255_le ((b >>> 8) &&& 0xff) (and_ff_le _)
      unfold darken255 at this
      exact this
    · have := darken255_le ((b >>> 16) &&& 0xff) (and_ff_le _)
      unfold darken255 at this
      exact this

/-- Elements of `intRange n` lie in `[0, n)`. -/
theorem mem_intRange {a n : ℤ} (h : a ∈ intRange n) : 0 ≤ a ∧ a < n := by
  unfold intRange at h
  rw [List.mem_map] at h
  obtain ⟨k, hk, rfl⟩ := h
  rw [List.mem_range] at hk
  exact ⟨Int.natCast_nonneg k, by omega⟩

/-- The clip step starts inside the target and never extends past its far
edge: `0 ≤ t` and `size ≤ targetSize - t`. -/
theorem clipAxis_bounds (pos size0 : ℤ) (ts : ℕ) :
    0 ≤ (clipAxis pos size0 ts).2.1 ∧
      (clipAxis pos size0 ts).2.2 ≤ (ts : ℤ) - (clipAxis pos size0 ts).2.1 := by
  unfold clipAxis
  split <;> simp <;> omega

/-- C2: `draw_on` never writes outside destination bounds — for every source,
destination and signed offsets `x`, `y` (negative and oversized included),
every traced write has column in `[0, target.width)` and row in
`[0, target.height)`. -/
theorem draw_on_writes_in_bounds (src target : Bitmap) (x y : ℤ)
    (e : (ℤ × ℤ) × ℕ) (he : e ∈ draw_on_trace src target x y) :
    0 ≤ e.1.1 ∧ e.1.1 < (target.width : ℤ) ∧
      0 ≤ e.1.2 ∧ e.1.2 < (target.height : ℤ) := by
  have hx := clipAxis_bounds x (src.width : ℤ) target.width
  have hy := clipAxis_bounds y (src.height : ℤ) target.height
  simp only [draw_on_trace, List.mem_flatMap, List.mem_filterMap] at he
  obtain ⟨j, hj, i, hi, hei⟩ := he
  have hj' := mem_intRange hj
  have hi' := mem_intRange hi
  split at hei
  · cases hei
    dsimp only
    omega
  · cases hei

/-- C2 witness: blitting the 1×1 opaque `srcA` onto `dstA` at `(0,0)` traces
the single write `((0,0), 0xff000005)`, whose coordinates are in bounds. -/
theorem draw_on_writes_in_bounds_witness :
    0 ≤ (0 : ℤ) ∧ (0 : ℤ) < (dstA.width : ℤ) ∧
      0 ≤ (0 : ℤ) ∧ (0 : ℤ) < (dstA.height : ℤ) :=
  draw_on_writes_in_bounds srcA dstA 0 0 ((0, 0), 0xff000005) (by decide)

/-- C10 (amended): every write of `draw_on_scaled` lands at the flat index
`(ty + j) · target.width + (tx + i)`, computed from the destination's `width`
field only (`scaledWriteIndex` does not read `stride`); consequently, when
`stride ≠ width`, every written pixel in a row below the destination's top
row (`ty + j ≥ 1`) does not land at the stride-addressed location of its
logical coordinate.  (A row-0 write coincides with it.) -/
theorem draw_on_scaled_width_addressed (src target : Bitmap) (x y sw0 sh0 du dv : ℤ)
    (e : (ℤ × ℤ) × ℕ) (he : e ∈ draw_on_scaled_trace src target x y sw0 sh0 du dv) :
    scaledWriteIndex target x sw0 y sh0 e.1.1 e.1.2
        = ((clipAxis y sh0 target.height).2.1 + e.1.2) * (target.width : ℤ)
          + ((clipAxis x sw0 target.width).2.1 + e.1.1) ∧
      (target.stride ≠ target.width → 1 ≤ (clipAxis y sh0 target.height).2.1 + e.1.2 →
        0 ≤ (clipAxis x sw0 target.width).2.1 + e.1.1 →
        scaledWriteIndex target x sw0 y sh0 e.1.1 e.1.2
          ≠ ((clipAxis y sh0 target.height).2.1 + e.1.2) * (target.stride : ℤ)
            + ((clipAxis x sw0 target.width).2.1 + e.1.1)) := by
  constructor
  · unfold scaledWriteIndex
    ring
  · intro hsw hrow _ heq
    unfold scaledWriteIndex at heq
    have hrj : ((clipAxis y sh0 target.height).2.1 + e.1.2) ≠ 0 := by omega
    have hmul : ((clipAxis y sh0 target.height).2.1 + e.1.2) * (target.width : ℤ)
        = ((clipAxis y sh0 target.height).2.1 + e.1.2) * (target.stride : ℤ) := by
      linarith [heq]
    have := mul_left_cancel₀ hrj hmul
    exact hsw (by exact_mod_cast this.symm)

/-- C10 witness: a 2×2 scaled blit onto `tgt10` (stride 3 ≠ width 2) at
`(0, 1)` writes its row-1 pixel at the width-addressed index, which differs
from the stride-addressed one. -/
theorem draw_on_scaled_width_addressed_witness :
    scaledWriteIndex tgt10 0 1 1 1 0 0
        = ((clipAxis 1 1 tgt10.height).2.1 + 0) * (tgt10.width : ℤ)
          + ((clipAxis 0 1 tgt10.width).2.1 + 0) ∧
      (tgt10.stride ≠ tgt10.width → 1 ≤ (clipAxis 1 1 tgt10.height).2.1 + 0 →
        0 ≤ (clipAxis 0 1 tgt10.width).2.1 + 0 →
        scaledWriteIndex tgt10 0 1 1 1 0 0
          ≠ ((clipAxis 1 1 tgt10.height).2.1 + 0) * (tgt10.stride : ℤ)
            + ((clipAxis 0 1 tgt10.width).2.1 + 0)) :=
  draw_on_scaled_width_addressed src10 tgt10 0 1 1 1 65535 65535 ((0, 0), 0xff000007)
    (by decide)

/-- C10 counterexample: the claim's closing clause — on a stride ≠ width
destination the stored value "does not land at that buffer's stride-addressed
(x, y) location" — fails for a top-row write: blitting `src10` onto `tgt10`
(stride 3 ≠ width 2) at `(1, 0)` produces the single write `(i,j) = (0,0)`,
and its width-addressed flat index `0·2 + 1 = 1` coincides with the
stride-addressed index `0·3 + 1`. -/
theorem draw_on_scaled_stride_counterexample :
    tgt10.stride ≠ tgt10.width ∧
      draw_on_scaled_trace src10 tgt10 1 0 1 1 65535 65535 = [((0, 0), 0xff000007)] ∧
      scaledWriteIndex tgt10 1 1 0 1 0 0 = 0 * (tgt10.stride : ℤ) + 1 := by
  refine ⟨by decide, by decide, by decide⟩

/-- C6: scale-(1,1) `draw_on_scaled` is NOT pixel-identical to `draw_on`.
Failing input: the 2×1 source `src6` (two distinct opaque pixels) onto the
2×1 zero destination `dst6` at `(0,0)` with `scale = (1.0, 1.0)`.  The four
float-derived parameters are computed exactly as `f32` does on this input:
`sw0 = |2·1.0| = 2`, `sh0 = 1`,
`du = ((1.0/2.0)·65535.0 as i32)·2 = 32767·2 = 65534` (32767.5 truncated —
the source multiplies by 65535.0, not 65536.0), and
`dv = ((1.0/1.0)·65535.0 as i32)·1 = 65535`.  Because `du < 65536`, the
second destination column's accumulator `u = 65534` still has `u >> 16 = 0`,
so source column 0 is sampled twice and the blit differs from `draw_on`,
which copies both columns faithfully. -/
theorem draw_on_scaled_one_ne_draw_on :
    (draw_on_scaled src6 dst6 0 0 2 1 65534 65535).pixels = [0xff000001, 0xff000001] ∧
      (draw_on src6 dst6 0 0).pixels = [0xff000001, 0xff000002] ∧
      draw_on_scaled src6 dst6 0 0 2 1 65534 65535 ≠ draw_on src6 dst6 0 0 := by
  refine ⟨by decide, by decide, by decide⟩

/-- C9: sampling a world position whose tile coordinate falls outside
`[0, width) × [0, height)` returns the empty flag set, for every tile-object
map and every active color mask. -/
theorem sample_world_pos_outside_none (m : TileMap) (p : ℚ × ℚ)
    (objs : List (ℕ × TileStruct)) (tf tc : List ℕ) (mask : ℕ)
    (h : (world_to_tile_index m p).1 < 0 ∨ (world_to_tile_index m p).2 < 0 ∨
         (m.width : ℤ) ≤ (world_to_tile_index m p).1 ∨
         (m.height : ℤ) ≤ (world_to_tile_index m p).2) :
    sample_world_pos m p objs tf tc mask = TileFlags.NONE := by
  unfold sample_world_pos
  rw [if_pos h]

/-- C9 witness: `(-9, 4)` lies in tile column `-1` of the scenario grid `m1`,
so sampling it returns `NONE` (here with mask 0). -/
theorem sample_world_pos_outside_none_witness :
    sample_world_pos m1 ((-9 : ℚ), (4 : ℚ)) objs1 [] [] 0 = TileFlags.NONE :=
  sample_world_pos_outside_none m1 ((-9 : ℚ), (4 : ℚ)) objs1 [] [] 0
    (by
      left
      show ratTrunc ((-9 : ℚ) / ((8 : ℕ) : ℚ)) < 0
      unfold ratTrunc
      norm_num)

/-- C3 counterexample: `world_to_tile_index` is NOT componentwise
`floor(pos / tile_size)`.  At the world position `(-4, 0)` on the scenario
grid (tile size 8) it yields tile `(0, 0)` — Rust's `as i32` cast truncates
`-0.5` toward zero — whereas the floor is `-1`. -/
theorem world_to_tile_index_not_floor :
    world_to_tile_index m1 ((-4 : ℚ), (0 : ℚ)) = (0, 0) ∧
      ⌊(-4 : ℚ) / (m1.tile_size : ℚ)⌋ = -1 := by
  constructor
  · show (ratTrunc ((-4 : ℚ) / ((8 : ℕ) : ℚ)), ratTrunc ((0 : ℚ) / ((8 : ℕ) : ℚ))) = (0, 0)
    unfold ratTrunc
    norm_num
  · show ⌊(-4 : ℚ) / ((8 : ℕ) : ℚ)⌋ = -1
    norm_num

/-- C3 (amended): `world_to_tile_index` truncates `pos / tile_size` toward
zero componentwise; on componentwise-nonnegative positions this coincides
with the claimed floor. -/
theorem world_to_tile_index_floor_nonneg (m : TileMap) (p : ℚ × ℚ)
    (hts : 0 < m.tile_size) (h1 : 0 ≤ p.1) (h2 : 0 ≤ p.2) :
    world_to_tile_index m p =
      (⌊p.1 / (m.tile_size : ℚ)⌋, ⌊p.2 / (m.tile_size : ℚ)⌋) := by
  unfold world_to_tile_index ratTrunc
  have d1 : 0 ≤ p.1 / (m.tile_size : ℚ) := div_nonneg h1 (by positivity)
  have d2 : 0 ≤ p.2 / (m.tile_size : ℚ) := div_nonneg h2 (by positivity)
  rw [if_pos d1, if_pos d2]

/-- C3 witness: at `(12, 20)` on the scenario grid the tile index is the
floor `(1, 2)`. -/
theorem world_to_tile_index_floor_nonneg_witness :
    world_to_tile_index m1 ((12 : ℚ), (20 : ℚ)) =
        (⌊(12 : ℚ) / (m1.tile_size : ℚ)⌋, ⌊(20 : ℚ) / (m1.tile_size : ℚ)⌋) ∧
      (⌊(12 : ℚ) / (m1.tile_size : ℚ)⌋, ⌊(20 : ℚ) / (m1.tile_size : ℚ)⌋) = ((1 : ℤ), (2 : ℤ)) :=
  ⟨world_to_tile_index_floor_nonneg m1 ((12 : ℚ), (20 : ℚ)) (by decide) (by norm_num)
      (by norm_num),
    by
      show (⌊(12 : ℚ) / ((8 : ℕ) : ℚ)⌋, ⌊(20 : ℚ) / ((8 : ℕ) : ℚ)⌋) = ((1 : ℤ), (2 : ℤ))
      norm_num⟩

/-- C1: for a world position whose tile coordinate lies inside the grid, with
`id` the cell's stored id: (1) if the cell is non-empty (`id ≠ -1`, the
sentinel meaning "no tile") and a definition matches the id, the sample is
`NONE` exactly when the definition's flags intersect RED/GREEN/BLUE and
`definition.color & mask & 0xffffff = 0`, and the definition's flags
unchanged otherwise; (2) if no definition matches, the sample is the empty
flag set; (3) in particular a non-gated Collision-only definition's flags
come back unchanged for every mask, including 0. -/
theorem sample_world_pos_in_grid (m : TileMap) (p : ℚ × ℚ)
    (objs : List (ℕ × TileStruct)) (tf tc : List ℕ) (mask : ℕ) (id : ℤ)
    (hx0 : 0 ≤ (world_to_tile_index m p).1)
    (hy0 : 0 ≤ (world_to_tile_index m p).2)
    (hxw : (world_to_tile_index m p).1 < (m.width : ℤ))
    (hyh : (world_to_tile_index m p).2 < (m.height : ℤ))
    (hid : m.tiles.get?
        ((world_to_tile_index m p).1 + (world_to_tile_index m p).2 * (m.width : ℤ)).toNat
      = some id) :
    (∀ obj, id ≠ -1 → btreeGet objs (i32ToUsize id) = some obj →
        sample_world_pos m p objs tf tc mask =
          if TileFlags.isColored obj.flags && (obj.color &&& (mask &&& 0xffffff) == 0) then
            TileFlags.NONE
          else obj.flags) ∧
      (id ≠ -1 → btreeGet objs (i32ToUsize id) = none →
        sample_world_pos m p objs tf tc mask = TileFlags.NONE) ∧
      (∀ obj, id ≠ -1 → btreeGet objs (i32ToUsize id) = some obj →
        obj.flags = TileFlags.COLLISION →
        sample_world_pos m p objs tf tc mask = TileFlags.COLLISION) := by
  have hbase : ∀ (k : ℕ),
      sample_world_pos m p objs tf tc mask =
        (if id ≠ -1 then
          match btreeGet objs (i32ToUsize id) with
          | some obj =>
            if TileFlags.isColored obj.flags && (obj.color &&& (mask &&& 0xffffff) == 0) then
              TileFlags.NONE
            else obj.flags
          | none => TileFlags.NONE
        else TileFlags.NONE) := by
    intro _
    unfold sample_world_pos
    rw [if_neg (by omega), hid]
    rfl
  refine ⟨?_, ?_, ?_⟩
  · intro obj hne hobj
    rw [hbase 0, if_pos hne, hobj]
  · intro hne hnone
    rw [hbase 0, if_pos hne, hnone]
  · intro obj hne hobj hflags
    rw [hbase 0, if_pos hne, hobj]
    simp only [hflags]
    rw [if_neg]
    simp [TileFlags.isColored, TileFlags.COLLISION, TileFlags.WHITE, TileFlags.RED,
      TileFlags.GREEN, TileFlags.BLUE]

/-- C1 witness: on the scenario grid `[-1, 5, -1]` with id 5 a Collision-only
definition, sampling inside cell `(1, 0)` with mask 0 returns exactly
`COLLISION` — the non-gated flag survives the zero mask. -/
theorem sample_world_pos_in_grid_witness :
    sample_world_pos m1 ((12 : ℚ), (4 : ℚ)) objs1 [] [] 0 = TileFlags.COLLISION := by
  have hidx : world_to_tile_index m1 ((12 : ℚ), (4 : ℚ)) = (1, 0) := by
    show (ratTrunc ((12 : ℚ) / ((8 : ℕ) : ℚ)), ratTrunc ((4 : ℚ) / ((8 : ℕ) : ℚ))) = (1, 0)
    unfold ratTrunc
    norm_num
  exact (sample_world_pos_in_grid m1 ((12 : ℚ), (4 : ℚ)) objs1 [] [] 0 5
      (by rw [hidx]; try decide) (by rw [hidx]; try decide) (by rw [hidx]; try decide)
      (by rw [hidx]; try decide) (by rw [hidx]; try decide)).2.2
    tile5 (by decide) (by decide) (by decide)

/-- C4: for the two triangles splitting an axis-aligned unit square along its
shared diagonal (square ABCD, triangles ACB and ADC), each drawn with
`draw_triangle` into its own sentinel-pre-filled buffer, every pixel of the
square's integer bounding box is painted in exactly one of the two buffers —
no gap, no double paint — at the three distinct, non-grid-aligned square
positions `(1.5, 1.5)`, `(2.5, 0.5)` and `(13/16, 45/16)` (given in the
rasterizer's 1/16 fixed-point units: `(24,24)`, `(40,8)`, `(13,45)`). -/
theorem triangle_split_exactly_once :
    unit_square_split_once 24 24 ∧ unit_square_split_once 40 8 ∧
      unit_square_split_once 13 45 := by
  refine ⟨by decide, by decide, by decide⟩

/-! ### Decimal round-trip lemmas for the level text format -/

theorem digitChar_isDigit (d : ℕ) : (digitChar d).isDigit = true := by
  unfold digitChar
  split <;> rfl

theorem digitChar_sub48 (d : ℕ) (h : d < 10) : (digitChar d).toNat - 48 = d := by
  interval_cases d <;> rfl

/-- A decimal digit character is none of the separators or signs the parser
treats specially. -/
theorem isDigit_plain (c : Char) (h : c.isDigit = true) :
    c ≠ ',' ∧ c ≠ '\n' ∧ c ≠ '\r' ∧ c ≠ '-' ∧ c ≠ '+' := by
  refine ⟨?_, ?_, ?_, ?_, ?_⟩ <;>
    · intro he
      rw [he] at h
      exact absurd h (by decide)

theorem natToDigits_ne_nil (n : ℕ) : natToDigits n ≠ [] := by
  rw [natToDigits]
  split
  · exact List.cons_ne_nil _ _
  · simp

theorem natToDigits_all_digit (n : ℕ) : ∀ c ∈ natToDigits n, c.isDigit = true := by
  induction n using Nat.strong_induction_on with
  | _ n ih =>
    intro c hc
    rw [natToDigits] at hc
    split at hc
    · rw [List.mem_singleton] at hc
      subst hc
      exact digitChar_isDigit _
    · rw [List.mem_append] at hc
      rcases hc with hc | hc
      · exact ih (n / 10) (Nat.div_lt_self (by omega) (by omega)) c hc
      · rw [List.mem_singleton] at hc
        subst hc
        exact digitChar_isDigit _

theorem digitsVal_natToDigits (n : ℕ) : digitsVal (natToDigits n) = n := by
  induction n using Nat.strong_induction_on with
  | _ n ih =>
    rw [natToDigits]
    split
    · unfold digitsVal
      simp only [List.foldl_cons, List.foldl_nil, Nat.zero_mul, Nat.zero_add]
      exact digitChar_sub48 n (by omega)
    · unfold digitsVal at ih ⊢
      rw [List.foldl_append]
      simp only [List.foldl_cons, List.foldl_nil]
      rw [ih (n / 10) (Nat.div_lt_self (by omega) (by omega))]
      rw [digitChar_sub48 (n % 10) (by omega)]
      omega

/-- Every character `format!("{}")` emits for an `i32` is a digit or the
leading minus sign — never a separator. -/
theorem int_repr_plain (t : ℤ) : ∀ c ∈ int_repr t, c ≠ ',' ∧ c ≠ '\n' ∧ c ≠ '\r' := by
  unfold int_repr
  split
  · intro c hc
    rcases List.mem_cons.mp hc with hc | hc
    · subst hc
      exact ⟨by decide, by decide, by decide⟩
    · have hd := natToDigits_all_digit _ c hc
      have := isDigit_plain c hd
      exact ⟨this.1, this.2.1, this.2.2.1⟩
  · intro c hc
    have hd := natToDigits_all_digit _ c hc
    have := isDigit_plain c hd
    exact ⟨this.1, this.2.1, this.2.2.1⟩

/-- Parsing inverts printing on every `i32` value. -/
theorem parse_i32_int_repr (t : ℤ) (h : inI32 t) : parse_i32 (int_repr t) = some t := by
  obtain ⟨hlo, hhi⟩ := h
  unfold int_repr
  split
  · rename_i hneg
    unfold parse_i32
    dsimp only
    rw [if_pos rfl]
    rw [if_pos ⟨natToDigits_ne_nil _, ⟨by
        rw [List.all_eq_true]
        intro c hc
        exact natToDigits_all_digit _ c hc, by
        rw [digitsVal_natToDigits]
        omega⟩⟩]
    rw [digitsVal_natToDigits]
    congr 1
    omega
  · rename_i hnonneg
    have hne := natToDigits_ne_nil t.toNat
    rcases hd : natToDigits t.toNat with _ | ⟨c, cs⟩
    · exact absurd hd hne
    have hcdig : c.isDigit = true := by
      refine natToDigits_all_digit t.toNat c ?_
      rw [hd]
      exact List.mem_cons_self _ _
    have hplain := isDigit_plain c hcdig
    unfold parse_i32
    dsimp only
    rw [if_neg hplain.2.2.2.1, if_neg hplain.2.2.2.2]
    rw [if_pos ⟨by
        rw [List.all_eq_true]
        intro d hdm
        refine natToDigits_all_digit t.toNat d ?_
        rw [hd]
        exact hdm, by
        rw [← hd, digitsVal_natToDigits]
        omega⟩]
    rw [← hd, digitsVal_natToDigits]
    congr 1
    omega

/-! ### Running the `from_file` character loop over structured text -/

theorem run_steps_cons (st : ParseState) (c : Char) (cs : List Char) :
    run_steps st (c :: cs) =
      match from_file_step st c with
      | Except.error e => Except.error e
      | Except.ok st2 => run_steps st2 cs := rfl

theorem run_steps_append (st : ParseState) (a b : List Char) :
    run_steps st (a ++ b) =
      match run_steps st a with
      | Except.error e => Except.error e
      | Except.ok st2 => run_steps st2 b := by
  induction a generalizing st with
  | nil => rfl
  | cons c cs ih =>
    rw [List.cons_append, run_steps_cons, run_steps_cons]
    cases from_file_step st c with
    | error e => rfl
    | ok st2 => exact ih st2

/-- Characters that are neither separators nor `\r` only extend the
accumulator. -/
theorem run_steps_plain (st : ParseState) (cs : List Char)
    (h : ∀ c ∈ cs, c ≠ ',' ∧ c ≠ '\n' ∧ c ≠ '\r') :
    run_steps st cs =
      Except.ok ⟨st.accumulator ++ cs, st.row_content, st.layout, st.tile_count_x⟩ := by
  induction cs generalizing st with
  | nil => simp [run_steps]
  | cons c cs ih =>
    have hc := h c (List.mem_cons_self c cs)
    have hstep : from_file_step st c =
        Except.ok ⟨st.accumulator ++ [c], st.row_content, st.layout, st.tile_count_x⟩ := by
      unfold from_file_step
      rw [if_neg (by
          rw [not_or]
          exact ⟨hc.1, hc.2.1⟩), if_neg hc.2.2]
    rw [run_steps_cons, hstep]
    show run_steps ⟨st.accumulator ++ [c], st.row_content, st.layout, st.tile_count_x⟩ cs = _
    rw [ih _ (fun d hd => h d (List.mem_cons_of_mem c hd))]
    simp

/-- A comma parses the accumulator and appends it to the current row. -/
theorem run_steps_comma (st : ParseState) (t : ℤ)
    (hacc : parse_i32 st.accumulator = some t) :
    run_steps st [','] =
      Except.ok ⟨[], st.row_content ++ [t], st.layout, st.tile_count_x⟩ := by
  have hstep : from_file_step st ',' =
      Except.ok ⟨[], st.row_content ++ [t], st.layout, st.tile_count_x⟩ := by
    unfold from_file_step
    rw [if_pos (Or.inl rfl), hacc]
    dsimp only
    rw [if_neg (by decide)]
  rw [run_steps_cons, hstep]
  rfl

/-- A newline parses the accumulator, appends it to the row, and closes the
row into the layout, folding its length into the running maximum. -/
theorem run_steps_newline (st : ParseState) (t : ℤ)
    (hacc : parse_i32 st.accumulator = some t) :
    run_steps st ['\n'] =
      Except.ok ⟨[], [], st.layout ++ [st.row_content ++ [t]],
        max st.tile_count_x (st.row_content.length + 1)⟩ := by
  have hstep : from_file_step st '\n' =
      Except.ok ⟨[], [], st.layout ++ [st.row_content ++ [t]],
        max st.tile_count_x (st.row_content ++ [t]).length⟩ := by
    unfold from_file_step
    rw [if_pos (Or.inr rfl), hacc]
    dsimp only
    rw [if_pos rfl]
  rw [run_steps_cons, hstep]
  show Except.ok _ = _
  rw [List.length_append, List.length_singleton]

theorem rowText_cons (t : ℤ) (row : List ℤ) :
    rowText (t :: row) = int_repr t ++ ([','] ++ rowText row) := by
  unfold rowText
  simp

theorem rowText_ne_nil (row : List ℤ) (h : row ≠ []) : rowText row ≠ [] := by
  rcases row with _ | ⟨t, row⟩
  · exact absurd rfl h
  · rw [rowText_cons]
    rcases ht : int_repr t with _ | _
    · exact absurd ht (by
        unfold int_repr
        split
        · exact List.cons_ne_nil _ _
        · exact natToDigits_ne_nil _)
    · simp

theorem rowOut_singleton (t : ℤ) : rowOut [t] = int_repr t ++ ['\n'] := by
  unfold rowOut
  rw [show rowText [t] = int_repr t ++ [','] by
    unfold rowText
    simp]
  rw [List.dropLast_concat]

theorem rowOut_cons (t : ℤ) (row : List ℤ) (h : row ≠ []) :
    rowOut (t :: row) = int_repr t ++ ([','] ++ rowOut row) := by
  unfold rowOut
  rw [rowText_cons]
  rw [show int_repr t ++ ([','] ++ rowText row) = (int_repr t ++ [',']) ++ rowText row by
    simp]
  rw [List.dropLast_append_of_ne_nil _ (rowText_ne_nil row h)]
  simp

/-- Feeding one serialized row to the loop (accumulator empty) closes exactly
that row. -/
theorem run_steps_row (row : List ℤ) (hne : row ≠ []) (hall : ∀ t ∈ row, inI32 t) :
    ∀ st : ParseState, st.accumulator = [] →
      run_steps st (rowOut row) =
        Except.ok ⟨[], [], st.layout ++ [st.row_content ++ row],
          max st.tile_count_x (st.row_content.length + row.length)⟩ := by
  induction row with
  | nil => exact absurd rfl hne
  | cons t row ih =>
    intro st hacc
    by_cases hrow : row = []
    · subst hrow
      rw [rowOut_singleton, run_steps_append]
      rw [run_steps_plain st _ (int_repr_plain t)]
      show run_steps ⟨st.accumulator ++ int_repr t, st.row_content, st.layout,
        st.tile_count_x⟩ ['\n'] = _
      rw [run_steps_newline _ t (by
        show parse_i32 (st.accumulator ++ int_repr t) = some t
        rw [hacc, List.nil_append]
        exact parse_i32_int_repr t (hall t (List.mem_cons_self t [])))]
      simp
    · rw [rowOut_cons t row hrow, run_steps_append]
      rw [run_steps_plain st _ (int_repr_plain t)]
      show run_steps ⟨st.accumulator ++ int_repr t, st.row_content, st.layout,
        st.tile_count_x⟩ ([','] ++ rowOut row) = _
      rw [run_steps_append]
      rw [run_steps_comma _ t (by
        show parse_i32 (st.accumulator ++ int_repr t) = some t
        rw [hacc, List.nil_append]
        exact parse_i32_int_repr t (hall t (List.mem_cons_self t row)))]
      show run_steps ⟨[], st.row_content ++ [t], st.layout, st.tile_count_x⟩ (rowOut row) = _
      rw [ih hrow (fun d hd => hall d (List.mem_cons_of_mem t hd))
          ⟨[], st.row_content ++ [t], st.layout, st.tile_count_x⟩ rfl]
      have h1 : (st.row_content ++ [t]) ++ row = st.row_content ++ t :: row := by simp
      have h2 : (st.row_content ++ [t]).length + row.length
          = st.row_content.length + (t :: row).length := by
        simp only [List.length_append, List.length_singleton, List.length_cons,
          List.length_nil]
        omega
      dsimp only
      rw [h1, h2]

/-- Feeding a whole rendered table to the loop accumulates exactly its rows
and the running maximum of their lengths. -/
theorem run_steps_render (rows : List (List ℤ)) (hne : ∀ r ∈ rows, r ≠ [])
    (hall : ∀ r ∈ rows, ∀ t ∈ r, inI32 t) :
    ∀ st : ParseState, st.accumulator = [] → st.row_content = [] →
      run_steps st (renderRows rows) =
        Except.ok ⟨[], [], st.layout ++ rows,
          rows.foldl (fun a r => max a r.length) st.tile_count_x⟩ := by
  induction rows with
  | nil =>
    intro st h1 h2
    obtain ⟨acc, rc, lay, tcx⟩ := st
    simp only at h1 h2
    subst h1
    subst h2
    simp [renderRows, run_steps]
  | cons r rows ih =>
    intro st h1 h2
    rw [show renderRows (r :: rows) = rowOut r ++ renderRows rows by
      unfold renderRows
      simp]
    rw [run_steps_append]
    rw [run_steps_row r (hne r (List.mem_cons_self r rows))
      (hall r (List.mem_cons_self r rows)) st h1]
    show run_steps ⟨[], [], st.layout ++ [st.row_content ++ r],
      max st.tile_count_x (st.row_content.length + r.length)⟩ (renderRows rows) = _
    rw [ih (fun d hd => hne d (List.mem_cons_of_mem r hd))
      (fun d hd => hall d (List.mem_cons_of_mem r hd)) _ rfl rfl]
    dsimp only
    rw [h2]
    simp [List.append_assoc]

/-- Folding list-append over a map is flattening. -/
theorem foldl_append_flatten {α β : Type} (l : List α) (f : α → List β) (acc : List β) :
    l.foldl (fun a x => a ++ f x) acc = acc ++ (l.map f).flatten := by
  induction l generalizing acc with
  | nil => simp
  | cons x xs ih =>
    simp only [List.foldl_cons, List.map_cons, List.flatten_cons]
    rw [ih]
    simp

/-- `from_file` on a rendered (possibly ragged) table: no error, width is the
widest row, and every row is resized to that width. -/
theorem from_file_renderRows (rows : List (List ℤ)) (hne : ∀ r ∈ rows, r ≠ [])
    (hall : ∀ r ∈ rows, ∀ t ∈ r, inI32 t) :
    from_file (renderRows rows) =
      Except.ok ⟨8, maxRowLen rows, rows.length,
        ((rows.map (fun r => resizeRow r (maxRowLen rows))).flatten)⟩ := by
  unfold from_file
  rw [run_steps_render rows hne hall ⟨[], [], [], 0⟩ rfl rfl]
  dsimp only
  rw [List.nil_append]
  rw [foldl_append_flatten]
  rw [List.nil_append]
  rfl

/-- C7 counterexample: the ragged level text `"1\n2,3\n"` (row 0 narrower
than row 1) is NOT a load error: `from_file` succeeds, with width 2, height 2,
and the short row silently right-padded with filler id 0 — the flat array is
`[1, 0, 2, 3]`. -/
theorem from_file_ragged_counterexample :
    from_file raggedText = Except.ok ⟨8, 2, 2, [1, 0, 2, 3]⟩ ∧
      ∀ msg, from_file raggedText ≠ Except.error msg := by
  have h : from_file raggedText = Except.ok ⟨8, 2, 2, [1, 0, 2, 3]⟩ := by rfl
  exact ⟨h, fun msg hmsg => by
    rw [h] at hmsg
    exact Except.noConfusion hmsg⟩

/-- C7 (amended): a comma-separated level text whose rows have unequal widths
is accepted, not rejected: for every rendered table of nonempty rows of `i32`
values, `from_file` returns a map whose width is the widest row's length,
whose height is the row count, and whose flat array is the rows each
right-padded with filler id `0` to the widest width (`from_file` aborts only
on an unparseable integer, not on a malformed row length). -/
theorem from_file_pads_short_rows (rows : List (List ℤ)) (hne : ∀ r ∈ rows, r ≠ [])
    (hall : ∀ r ∈ rows, ∀ t ∈ r, inI32 t) :
    from_file (renderRows rows) =
      Except.ok ⟨8, maxRowLen rows, rows.length,
        ((rows.map (fun r =>
          r.take (maxRowLen rows) ++ List.replicate (maxRowLen rows - r.length) 0)).flatten)⟩ := by
  rw [from_file_renderRows rows hne hall]
  rfl

/-- C7 witness: the padding theorem applied to the concrete ragged table
`[[1], [2, 3]]`. -/
theorem from_file_pads_short_rows_witness :
    from_file (renderRows [[1], [2, 3]]) =
      Except.ok ⟨8, maxRowLen [[1], [2, 3]], 2,
        (([[1], [2, 3]].map (fun r : List ℤ =>
          r.take (maxRowLen [[1], [2, 3]]) ++
            List.replicate (maxRowLen [[1], [2, 3]] - r.length) 0)).flatten)⟩ :=
  from_file_pads_short_rows [[1], [2, 3]] (by decide) (by decide)

/-! ### Round trip: `store_to_file` then `from_file` -/

theorem foldl_max_const {w : ℕ} (l : List (List ℤ)) (hl : ∀ r ∈ l, r.length = w)
    (hne : l ≠ []) : ∀ acc, l.foldl (fun a r => max a r.length) acc = max acc w := by
  induction l with
  | nil => exact absurd rfl hne
  | cons r rest ih =>
    intro acc
    by_cases hr : rest = []
    · subst hr
      show max acc r.length = max acc w
      rw [hl r (List.mem_cons_self r [])]
    · show rest.foldl _ (max acc r.length) = _
      rw [ih (fun d hd => hl d (List.mem_cons_of_mem r hd)) hr (max acc r.length)]
      rw [hl r (List.mem_cons_self r rest)]
      rw [max_assoc, max_self]

theorem rowsOf_length_eq (m : TileMap) : ∀ r ∈ rowsOf m, r.length = m.width := by
  intro r hr
  unfold rowsOf at hr
  rw [List.mem_map] at hr
  obtain ⟨y, _, rfl⟩ := hr
  simp

theorem rowsOf_ne_nil (m : TileMap) (hh : 1 ≤ m.height) : rowsOf m ≠ [] := by
  intro hnil
  have : (rowsOf m).length = m.height := by simp [rowsOf]
  rw [hnil] at this
  simp at this
  omega

theorem maxRowLen_rowsOf (m : TileMap) (hh : 1 ≤ m.height) :
    maxRowLen (rowsOf m) = m.width := by
  unfold maxRowLen
  rw [foldl_max_const (rowsOf m) (rowsOf_length_eq m) (rowsOf_ne_nil m hh) 0]
  exact Nat.zero_max _

theorem resizeRow_of_length (row : List ℤ) (w : ℕ) (h : row.length = w) :
    resizeRow row w = row := by
  unfold resizeRow
  rw [← h, List.take_length, Nat.sub_self, List.replicate_zero, List.append_nil]

/-- Reading `w` consecutive `getD` values starting at `off` is a
drop-then-take. -/
theorem map_getD_range (ts : List ℤ) : ∀ (w off : ℕ), off + w ≤ ts.length →
    (List.range w).map (fun x => ts.getD (off + x) 0) = (ts.drop off).take w := by
  intro w
  induction w with
  | zero =>
    intro off _
    simp
  | succ w ih =>
    intro off h
    rw [List.range_succ, List.map_append, ih off (by omega)]
    simp only [List.map_cons, List.map_nil]
    rw [List.take_succ]
    congr 1
    rw [List.getElem?_drop]
    rw [List.getD_eq_getElem ts 0 (show off + w < ts.length by omega)]
    rw [List.getElem?_eq_getElem (show off + w < ts.length by omega)]
    rfl

/-- Flattening `h` rows of `w` consecutive `getD` reads starting at `off`
reconstructs the corresponding flat slice. -/
theorem flatten_rows_aux (ts : List ℤ) (w : ℕ) : ∀ (h off : ℕ), off + h * w ≤ ts.length →
    ((List.range h).map (fun y =>
        (List.range w).map (fun x => ts.getD (off + y * w + x) 0))).flatten
      = (ts.drop off).take (h * w) := by
  intro h
  induction h with
  | zero =>
    intro off _
    simp
  | succ h ih =>
    intro off hb
    rw [Nat.succ_mul] at hb
    rw [List.range_succ_eq_map]
    simp only [List.map_cons, List.map_map, List.flatten_cons]
    have hhead : (List.range w).map (fun x => ts.getD (off + 0 * w + x) 0)
        = (ts.drop off).take w := by
      rw [List.map_congr_left (fun x _ => by
        rw [show off + 0 * w + x = off + x by ring])]
      exact map_getD_range ts w off (by omega)
    have htail : (List.range h).map
          ((fun y => (List.range w).map (fun x => ts.getD (off + y * w + x) 0)) ∘ Nat.succ)
        = (List.range h).map (fun y =>
          (List.range w).map (fun x => ts.getD ((off + w) + y * w + x) 0)) := by
      refine List.map_congr_left (fun y _ => ?_)
      show (List.range w).map (fun x => ts.getD (off + (y + 1) * w + x) 0) = _
      refine List.map_congr_left (fun x _ => ?_)
      rw [show off + (y + 1) * w + x = (off + w) + y * w + x by ring]
    rw [hhead, htail, ih (off + w) (by omega)]
    rw [show ts.drop (off + w) = (ts.drop off).drop w by rw [List.drop_drop, Nat.add_comm]]
    rw [show Nat.succ h * w = w + h * w by rw [Nat.succ_mul, Nat.add_comm]]
    rw [List.take_add]

theorem flatten_rowsOf (m : TileMap) (hlen : m.tiles.length = m.height * m.width) :
    (rowsOf m).flatten = m.tiles := by
  have h0 : rowsOf m = (List.range m.height).map (fun y =>
      (List.range m.width).map (fun x => m.tiles.getD (0 + y * m.width + x) 0)) := by
    unfold rowsOf
    refine List.map_congr_left (fun y _ => ?_)
    refine List.map_congr_left (fun x _ => ?_)
    rw [show y * m.width + x = 0 + y * m.width + x by omega]
  rw [h0, flatten_rows_aux m.tiles m.width m.height 0 (by omega), List.drop_zero, ← hlen,
    List.take_length]

/-- One row of `store_to_file`'s output, after the pop-comma/push-newline
dance, is `rowOut` of that row. -/
theorem store_row_eq (m : TileMap) (hw : 1 ≤ m.width) (data : List Char) (y : ℕ) :
    ((List.range m.width).foldl
        (fun d x => d ++ (int_repr (m.tiles.getD (y * m.width + x) 0) ++ [','])) data).dropLast
      ++ ['\n']
      = data ++ rowOut ((List.range m.width).map (fun x => m.tiles.getD (y * m.width + x) 0)) := by
  rw [foldl_append_flatten (List.range m.width)
    (fun x => int_repr (m.tiles.getD (y * m.width + x) 0) ++ [',']) data]
  have hrt : ((List.range m.width).map
        (fun x => int_repr (m.tiles.getD (y * m.width + x) 0) ++ [','])).flatten
      = rowText ((List.range m.width).map (fun x => m.tiles.getD (y * m.width + x) 0)) := by
    unfold rowText
    rw [List.map_map]
    rfl
  rw [hrt]
  have hne : rowText ((List.range m.width).map fun x => m.tiles.getD (y * m.width + x) 0)
      ≠ [] := by
    apply rowText_ne_nil
    intro hnil
    rw [List.map_eq_nil_iff, List.range_eq_nil] at hnil
    omega
  rw [List.dropLast_append_of_ne_nil _ hne]
  rw [List.append_assoc]
  rfl

/-- `store_to_file` produces exactly the rendered row-major table. -/
theorem store_to_file_eq (m : TileMap) (hw : 1 ≤ m.width) :
    store_to_file m = renderRows (rowsOf m) := by
  unfold store_to_file
  rw [List.foldl_ext _
    (fun data y =>
      data ++ rowOut ((List.range m.width).map (fun x => m.tiles.getD (y * m.width + x) 0)))
    []
    (fun data y _ => store_row_eq m hw data y)]
  rw [foldl_append_flatten]
  rw [List.nil_append]
  unfold renderRows rowsOf
  rw [List.map_map]
  rfl

/-- C8 (amended): for every `TileMap` with at least one column and one row
(and the structural invariant `tiles.length = height · width`, `tiles` being
`i32` values), serializing with `store_to_file` and reloading with
`from_file` yields identical width, identical height and an identical flat
id array (the reloaded `tile_size` is the constant 8 `from_file` always
assigns). -/
theorem store_to_file_roundtrip (m : TileMap) (hw : 1 ≤ m.width) (hh : 1 ≤ m.height)
    (hlen : m.tiles.length = m.height * m.width) (hall : ∀ t ∈ m.tiles, inI32 t) :
    from_file (store_to_file m) = Except.ok ⟨8, m.width, m.height, m.tiles⟩ := by
  rw [store_to_file_eq m hw]
  rw [from_file_renderRows (rowsOf m)
    (fun r hr => by
      intro hemp
      have := rowsOf_length_eq m r hr
      rw [hemp] at this
      simp at this
      omega)
    (fun r hr t ht => by
      unfold rowsOf at hr
      rw [List.mem_map] at hr
      obtain ⟨y, hy, rfl⟩ := hr
      rw [List.mem_range] at hy
      rw [List.mem_map] at ht
      obtain ⟨x, hx, rfl⟩ := ht
      rw [List.mem_range] at hx
      have hb : y * m.width + x < m.tiles.length := by
        rw [hlen]
        have h1 : y * m.width + x < (y + 1) * m.width := by
          rw [Nat.succ_mul]
          omega
        have h2 : (y + 1) * m.width ≤ m.height * m.width :=
          Nat.mul_le_mul_right m.width hy
        omega
      rw [List.getD_eq_getElem _ _ hb]
      exact hall _ (List.getElem_mem hb))]
  rw [maxRowLen_rowsOf m hh]
  rw [List.map_congr_left (fun r hr => resizeRow_of_length r m.width (rowsOf_length_eq m r hr))]
  rw [show List.map (fun r : List ℤ => r) (rowsOf m) = rowsOf m from List.map_id' _]
  rw [flatten_rowsOf m hlen]
  have hlen2 : (rowsOf m).length = m.height := by simp [rowsOf]
  rw [hlen2]

/-- C8 witness: the round trip on the concrete 2×2 map `[1, -1, 7, 42]`. -/
theorem store_to_file_roundtrip_witness :
    from_file (store_to_file mRound)
      = Except.ok ⟨8, mRound.width, mRound.height, mRound.tiles⟩ :=
  store_to_file_roundtrip mRound (by decide) (by decide) (by decide) (by decide)

/-- C8 counterexample: the round trip does NOT hold for every `TileMap`.  The
zero-column, one-row map `mNoCols` serializes to a single blank line, which
`from_file` rejects (the newline hits an empty accumulator), so reloading
yields no `TileMap` at all, let alone one with identical width. -/
theorem store_roundtrip_counterexample :
    store_to_file mNoCols = ['\n'] ∧
      from_file (store_to_file mNoCols) = Except.error "Could not parse!" :=
  ⟨rfl, rfl⟩

end GGJ
